import Mathlib

/-!
# Verification of the data-mirage ML processing pipeline

Shallow embedding, in Lean 4, of the ML processing core of the
`valak74200/data-mirage` repository:

* `app/services/ml/optimization.py` — `HyperparameterOptimizer`
  (trial recording and best-trial selection);
* `app/services/ml_processor.py` — `MLProcessor` (the orchestrator:
  preprocessing, reduction, clustering, anomaly detection, point and
  cluster assembly);
* `app/services/ml/base.py` — `ProcessingPipeline` (progress reporting)
  and `AsyncMLProcessor` (task registry, results map, cleanup);
* `app/services/ml/dimensionality.py` — the reducers' shared
  pad-to-3D output step;
* `app/services/ml/clustering.py` — `KMeansClusterer` auto-K selection;
* `app/services/ml/anomalies.py` — `EnsembleAnomalyDetector.transform`.

Numeric routines supplied by external libraries (scikit-learn, numpy
linear algebra, pandas sampling) are modelled as explicit function
parameters (`Externals`), constrained in theorems only by their
documented shape contracts (one output row per input row, a sample of
exactly `n` rows, and so on).  Machine floats are modelled as `ℚ`;
Python `dict`s keyed by strings as insertion-ordered association lists;
fallible code returns `Except`.
-/

namespace DataMirage

/-! ## Hyperparameter optimization (`app/services/ml/optimization.py`)

`HyperparameterOptimizer._evaluate_clustering_params` records, for each
parameter combination, either the evaluated score or — when the
evaluation throws — a record with `score = -1.0` and an `error` field
(lines 374–390).  `optimize_clustering` then takes
`max(results, key=lambda x: x['score'])` over the whole list
(line 150).  The evaluation of one combination is external numeric
work; we model each trial's outcome as an `Except` value.  The order of
`results` is the `as_completed` completion order; the selection logic is
modelled over an arbitrary results list. -/

/-- One entry of the `results` list built by
`_evaluate_clustering_params` / `_evaluate_dr_params`: the parameter
combination (identified by an index), the recorded score, and the
optional error string. -/
structure TrialRecord where
  params : ℕ
  score : ℚ
  error : Option String
  deriving DecidableEq

/-- How a single trial outcome is recorded (optimization.py lines
377–388 and 477–491): a successful evaluation keeps its score; a raised
exception is recorded with score `-1.0` and the error message. -/
def recordTrial (params : ℕ) (outcome : Except String ℚ) : TrialRecord :=
  match outcome with
  | .ok s => { params := params, score := s, error := none }
  | .error e => { params := params, score := -1, error := some e }

/-- The full results list (one record per parameter combination). -/
def evaluateTrials (trials : List (ℕ × Except String ℚ)) : List TrialRecord :=
  trials.map fun p => recordTrial p.1 p.2

/-- Python's `max(results, key=lambda x: x['score'])`: the first record
whose score is maximal (later records replace the current best only on
a strictly greater score); `none` on the empty list (where Python
raises `ValueError`). -/
def pyMaxByScore (l : List TrialRecord) : Option TrialRecord :=
  l.foldl
    (fun acc r =>
      match acc with
      | none => some r
      | some b => if r.score > b.score then some r else some b)
    none

/-- `OptimizationResult` (optimization.py lines 24–32), restricted to
the fields the claims are about. -/
structure OptimizationResult where
  bestParams : ℕ
  bestScore : ℚ
  nTrials : ℕ
  deriving DecidableEq

/-- `HyperparameterOptimizer.optimize_clustering`, lines 144–161:
evaluate every combination, then
`best_result = max(results, key=lambda x: x['score'])` over the whole
results list — errored records included — and return an
`OptimizationResult` built from that record.  The only raising path of
this step is `max` on an empty sequence.
(`optimize_dimensionality_reduction`, lines 208–223, selects the best
trial with the identical expression over its own results list.) -/
def optimizeClustering (trials : List (ℕ × Except String ℚ)) :
    Except String OptimizationResult :=
  match pyMaxByScore (evaluateTrials trials) with
  | none => .error "max() arg is an empty sequence"
  | some best =>
      .ok { bestParams := best.params, bestScore := best.score,
            nTrials := trials.length }

/-- Invariant of the running-maximum fold underlying `pyMaxByScore`:
starting from a current best `b`, the fold yields a record `r` that
dominates `b` and every scanned record, and is either `b` itself or the
first scanned record strictly above everything before it. -/
theorem pyMaxByScore_fold_spec (l : List TrialRecord) (b : TrialRecord) :
    ∃ r,
      l.foldl
        (fun acc x =>
          match acc with
          | none => some x
          | some c => if x.score > c.score then some x else some c)
        (some b) = some r ∧
      (∀ x ∈ l, x.score ≤ r.score) ∧ b.score ≤ r.score ∧
      (r = b ∨ ∃ l₁ l₂, l = l₁ ++ r :: l₂ ∧ b.score < r.score ∧
        ∀ x ∈ l₁, x.score < r.score) := by
  induction l generalizing b with
  | nil => exact ⟨b, rfl, by simp, le_refl _, Or.inl rfl⟩
  | cons x l ih =>
    by_cases hx : x.score > b.score
    · obtain ⟨r, hr, hall, hbr, hcase⟩ := ih x
      refine ⟨r, ?_, ?_, ?_, ?_⟩
      · simpa [hx] using hr
      · intro y hy
        rcases List.mem_cons.mp hy with h | h
        · exact h ▸ hbr
        · exact hall y h
      · exact le_of_lt (lt_of_lt_of_le hx hbr)
      · rcases hcase with h | ⟨l₁, l₂, hdec, hlt, hl₁⟩
        · exact Or.inr ⟨[], l, by simp [h], h ▸ hx, by simp⟩
        · refine Or.inr ⟨x :: l₁, l₂, by simp [hdec], lt_trans hx hlt, ?_⟩
          intro y hy
          rcases List.mem_cons.mp hy with h | h
          · exact h ▸ hlt
          · exact hl₁ y h
    · push_neg at hx
      obtain ⟨r, hr, hall, hbr, hcase⟩ := ih b
      refine ⟨r, ?_, ?_, hbr, ?_⟩
      · simpa [not_lt.mpr hx] using hr
      · intro y hy
        rcases List.mem_cons.mp hy with h | h
        · exact h ▸ le_trans hx hbr
        · exact hall y h
      · rcases hcase with h | ⟨l₁, l₂, hdec, hlt, hl₁⟩
        · exact Or.inl h
        · refine Or.inr ⟨x :: l₁, l₂, by simp [hdec], hlt, ?_⟩
          intro y hy
          rcases List.mem_cons.mp hy with h | h
          · exact h ▸ lt_of_le_of_lt hx hlt
          · exact hl₁ y h

/-- C1, counterexample.  The claim says a trial that throws is excluded
from best-trial selection, and that when every trial fails the call
raises instead of returning an `OptimizationResult`.  The code does
neither: with two failing trials `optimize_clustering` returns an
`OptimizationResult` whose best trial is the first errored record
(score `-1.0`); and an errored record (score `-1.0`) is selected over a
successful trial whose score is lower (here `-2`, reachable with the
negative-Davies-Bouldin scoring). -/
theorem optimizeClustering_allFailed_returns_result :
    optimizeClustering [(0, .error "boom"), (1, .error "crash")] =
      .ok { bestParams := 0, bestScore := -1, nTrials := 2 } ∧
    optimizeClustering [(0, .error "boom"), (1, .ok (-2))] =
      .ok { bestParams := 0, bestScore := -1, nTrials := 2 } := by
  constructor <;> rfl

/-- C1, amended.  For every nonempty trial list,
`optimize_clustering` / `optimize_dimensionality_reduction` returns (it
never raises once at least one combination was evaluated — even when
every trial failed): the returned `best_params`/`best_score` come from
the maximum-score record among **all** recorded trials, errored records
included at score `-1.0`, ties broken by first occurrence in the
results list. -/
theorem optimizeClustering_best_over_all_trials
    (trials : List (ℕ × Except String ℚ)) (h : trials ≠ []) :
    ∃ l₁ best l₂,
      evaluateTrials trials = l₁ ++ best :: l₂ ∧
      optimizeClustering trials =
        .ok { bestParams := best.params, bestScore := best.score,
              nTrials := trials.length } ∧
      (∀ r ∈ evaluateTrials trials, r.score ≤ best.score) ∧
      (∀ r ∈ l₁, r.score < best.score) := by
  obtain ⟨t, ts, hts⟩ : ∃ t ts, trials = t :: ts := by
    cases trials with
    | nil => exact absurd rfl h
    | cons t ts => exact ⟨t, ts, rfl⟩
  subst hts
  obtain ⟨r, hr, hall, hbr, hcase⟩ :=
    pyMaxByScore_fold_spec (evaluateTrials ts) (recordTrial t.1 t.2)
  have hcons : evaluateTrials (t :: ts) =
      recordTrial t.1 t.2 :: evaluateTrials ts := rfl
  have hmax : pyMaxByScore (evaluateTrials (t :: ts)) = some r := by
    rw [hcons]
    exact hr
  have hok : optimizeClustering (t :: ts) =
      .ok { bestParams := r.params, bestScore := r.score,
            nTrials := (t :: ts).length } := by
    unfold optimizeClustering
    rw [hmax]
  rcases hcase with hrb | ⟨l₁, l₂, hdec, hlt, hl₁⟩
  · refine ⟨[], r, evaluateTrials ts, ?_, hok, ?_, by simp⟩
    · rw [hcons, hrb]
      rfl
    · intro x hx
      rw [hcons] at hx
      rcases List.mem_cons.mp hx with h | h
      · exact h ▸ (hrb ▸ le_refl _)
      · exact hall x h
  · refine ⟨recordTrial t.1 t.2 :: l₁, r, l₂, ?_, hok, ?_, ?_⟩
    · rw [hcons, hdec]
      rfl
    · intro x hx
      rw [hcons] at hx
      rcases List.mem_cons.mp hx with h | h
      · exact h ▸ hbr
      · exact hall x h
    · intro x hx
      rcases List.mem_cons.mp hx with h | h
      · exact h ▸ hlt
      · exact hl₁ x h

/-- Witness for `optimizeClustering_best_over_all_trials` at a concrete
trial list. -/
theorem optimizeClustering_best_over_all_trials_witness :
    ∃ l₁ best l₂,
      evaluateTrials [(0, Except.error "boom"), (1, Except.ok 2)] =
        l₁ ++ best :: l₂ ∧
      optimizeClustering [(0, Except.error "boom"), (1, Except.ok 2)] =
        .ok { bestParams := best.params, bestScore := best.score,
              nTrials := 2 } ∧
      (∀ r ∈ evaluateTrials [(0, Except.error "boom"), (1, Except.ok 2)],
        r.score ≤ best.score) ∧
      (∀ r ∈ l₁, r.score < best.score) :=
  optimizeClustering_best_over_all_trials
    [(0, Except.error "boom"), (1, Except.ok 2)] (List.cons_ne_nil _ _)

/-! ## `ProcessingPipeline` progress reporting (`app/services/ml/base.py`)

`ProcessingPipeline.run` (lines 226–288) walks the requested stage
list; for the `i`-th stage that has a registered algorithm it calls
`_update_progress(stage, (i / total_stages) * 100, ...)` (stages
without an algorithm are skipped with `continue`, emitting nothing),
and after the loop it calls `_update_progress(FINALIZATION, 100.0, ...)`.
`_update_progress` (lines 212–224) assigns `context.progress` to the
given percent.  The values assigned to `ProcessingContext.progress`
during one `run` are therefore exactly the trace below. -/

/-- The pipeline stages (`ProcessingStage`, base.py lines 25–33). -/
inductive Stage
  | preprocessing
  | dimensionalityReduction
  | clustering
  | anomalyDetection
  | validation
  | optimizationStage
  | finalization
  deriving DecidableEq

/-- The progress percents emitted by the stage loop of
`ProcessingPipeline.run`, starting at loop index `i` with
`total_stages = total`: `(i / total) * 100` for each stage that has a
registered algorithm (`defined`). -/
def runEmittedProgress (defined : Stage → Bool) (total : ℕ) :
    List Stage → ℕ → List ℚ
  | [], _ => []
  | s :: rest, i =>
      (if defined s then [((i : ℚ) / (total : ℚ)) * 100] else []) ++
        runEmittedProgress defined total rest (i + 1)

/-- The full sequence of values assigned to `ProcessingContext.progress`
by one successful `ProcessingPipeline.run` over `stages`: the per-stage
percents followed by the terminal `100.0` update. -/
def runProgressTrace (defined : Stage → Bool) (stages : List Stage) :
    List ℚ :=
  runEmittedProgress defined stages.length stages 0 ++ [100]

/-- Each emitted percent is bounded by the next ones and by the
terminal `100`, as long as the remaining stage count fits in `total`. -/
theorem runEmittedProgress_chain (defined : Stage → Bool) (total : ℕ) :
    ∀ (rest : List Stage) (i : ℕ), i + rest.length ≤ total →
      List.Chain' (· ≤ ·) (runEmittedProgress defined total rest i ++ [100]) ∧
      ∀ x ∈ runEmittedProgress defined total rest i ++ [100],
        ((i : ℚ) / (total : ℚ)) * 100 ≤ x := by
  intro rest
  induction rest with
  | nil =>
    intro i hi
    refine ⟨by simp [runEmittedProgress], ?_⟩
    intro x hx
    simp only [runEmittedProgress, List.nil_append, List.mem_singleton] at hx
    subst hx
    rcases Nat.eq_zero_or_pos total with h0 | hpos
    · simp [h0]
    · have h1 : (i : ℚ) / (total : ℚ) ≤ 1 := by
        rw [div_le_one (by exact_mod_cast hpos)]
        exact_mod_cast by simpa using hi
      nlinarith
  | cons s rest ih =>
    intro i hi
    have hi' : (i + 1) + rest.length ≤ total := by
      simpa [Nat.add_assoc, Nat.add_comm 1 rest.length] using hi
    obtain ⟨hchain, hbound⟩ := ih (i + 1) hi'
    have hstep : ((i : ℚ) / (total : ℚ)) * 100 ≤
        (((i : ℚ) + 1) / (total : ℚ)) * 100 := by
      rcases Nat.eq_zero_or_pos total with h0 | hpos
      · simp [h0]
      · have ht : (0 : ℚ) < (total : ℚ) := by exact_mod_cast hpos
        have h1 : (i : ℚ) / (total : ℚ) ≤ ((i : ℚ) + 1) / (total : ℚ) :=
          (div_le_div_iff_of_pos_right ht).mpr (by linarith)
        exact mul_le_mul_of_nonneg_right h1 (by norm_num)
    by_cases hs : defined s = true
    · have hbound' : ∀ x ∈ runEmittedProgress defined total rest (i + 1) ++ [100],
          ((i : ℚ) / (total : ℚ)) * 100 ≤ x := by
        intro x hx
        refine le_trans hstep ?_
        have := hbound x hx
        simpa [Nat.cast_add, Nat.cast_one] using this
      constructor
      · simp only [runEmittedProgress, hs, if_true, List.singleton_append,
          List.cons_append]
        rw [List.chain'_cons']
        refine ⟨?_, by simpa using hchain⟩
        intro b hb
        apply hbound'
        exact List.mem_of_mem_head? (by simpa using hb)
      · intro x hx
        simp only [runEmittedProgress, hs, if_true, List.singleton_append,
          List.cons_append, List.mem_cons] at hx
        rcases hx with h | h
        · exact h ▸ le_refl _
        · exact hbound' x (by simpa using h)
    · have hs' : defined s = false := by
        simpa using hs
      constructor
      · simpa [runEmittedProgress, hs'] using hchain
      · intro x hx
        simp only [runEmittedProgress, hs', if_false, List.nil_append] at hx
        exact le_trans hstep (by simpa [Nat.cast_add, Nat.cast_one] using hbound x hx)

/-- C5, confirmed.  Within one `ProcessingPipeline.run`, the values
successively assigned to `ProcessingContext.progress` — the per-stage
percents `(i / total) * 100` and the terminal `100.0` — form a
non-decreasing sequence: the run's progress never decreases.  This
holds for every set of registered algorithms and every requested stage
list. -/
theorem runProgressTrace_monotone (defined : Stage → Bool)
    (stages : List Stage) :
    List.Chain' (· ≤ ·) (runProgressTrace defined stages) :=
  (runEmittedProgress_chain defined stages.length stages 0 (by simp)).1

/-! ## `AsyncMLProcessor` (`app/services/ml/base.py`, lines 317–444)

The processor keeps `active_tasks : Dict[str, asyncio.Task]` (the
running registry, modelled by its key list) and `task_results :
Dict[str, Any]` (the results map, an insertion-ordered dict modelled as
an association list).  The result payloads carry a `status` field; only
that field matters to the claims, the `results`/`summary`/`error`
payload fields are opaque.  The body `_run_task` runs, then writes its
terminal record and removes the id from the registry in one
uninterrupted (await-free) sequence, which the step functions below
reflect. -/

/-- The `status` values ever stored in `task_results`
(base.py lines 361–371, 418–421). -/
inductive TaskStatus
  | completed
  | failed
  | cancelled
  deriving DecidableEq, BEq

/-- Python `dict` assignment `m[k] = v` on an insertion-ordered dict:
overwrite in place when the key exists, else append. -/
def dictSet (m : List (String × TaskStatus)) (k : String) (v : TaskStatus) :
    List (String × TaskStatus) :=
  if m.any (fun p => p.1 == k) then
    m.map fun p => if p.1 == k then (k, v) else p
  else m ++ [(k, v)]

/-- The mutable state of one `AsyncMLProcessor`. -/
structure AsyncState where
  activeTasks : List String
  taskResults : List (String × TaskStatus)
  deriving DecidableEq

/-- `AsyncMLProcessor.submit_task` (lines 337–380): raise `ValueError`
when the id is in the running registry, else create the background task
and register the id. -/
def submitTask (st : AsyncState) (id : String) : Except String AsyncState :=
  if st.activeTasks.contains id then
    .error ("Task " ++ id ++ " already exists")
  else
    .ok { st with activeTasks := st.activeTasks ++ [id] }

/-- Termination of the background body `_run_task` (lines 357–375):
record `{status: completed|failed, ...}` in `task_results`, then drop
the id from the running registry (`finally` block). -/
def finishTask (st : AsyncState) (id : String) (status : TaskStatus) :
    AsyncState :=
  { activeTasks := st.activeTasks.erase id,
    taskResults := dictSet st.taskResults id status }

/-- `AsyncMLProcessor.cancel_task` (lines 403–424): for a running id,
cancel it, drop it from the registry and store a `cancelled` record;
otherwise return `False`. -/
def cancelTask (st : AsyncState) (id : String) : AsyncState × Bool :=
  if st.activeTasks.contains id then
    ({ activeTasks := st.activeTasks.erase id,
       taskResults := dictSet st.taskResults id .cancelled }, true)
  else
    (st, false)

/-- `AsyncMLProcessor.cleanup_completed_tasks` (lines 426–444): collect
every id whose record is terminal, then `del` the **first** ten of
them (`to_remove[:10]`) from the results map.  The `max_age_seconds`
argument is never consulted. -/
def cleanupCompletedTasks (taskResults : List (String × TaskStatus)) :
    List (String × TaskStatus) :=
  let toRemove :=
    (taskResults.filter fun p =>
      p.2 == TaskStatus.completed || p.2 == TaskStatus.failed ||
        p.2 == TaskStatus.cancelled).map Prod.fst
  taskResults.filter fun p => !(toRemove.take 10).contains p.1

/-- A results map holding 21 terminal records, the cleanup claim's
failing input. -/
def cleanupExample : List (String × TaskStatus) :=
  (List.range 21).map fun i => (toString i, TaskStatus.completed)

/-- C9, code bug.  The claim (and the code's own comment, "Keep only
last 10 results") says that after `cleanup_completed_tasks` at most the
most recent N = 10 terminal results remain.  The code instead deletes
only the **oldest** ten terminal records (`to_remove[:10]`) and keeps
all others: on a results map holding 21 terminal records, 11 records —
more than 10 — survive the call. -/
theorem cleanupCompletedTasks_keeps_more_than_ten :
    (cleanupCompletedTasks cleanupExample).length = 11 ∧
    cleanupCompletedTasks cleanupExample =
      (List.range 21).filterMap fun i =>
        if 10 ≤ i then some (toString i, TaskStatus.completed) else none := by
  constructor <;> decide

/-- C10, counterexample.  The claim says submitting an id that was
already submitted raises, and that no task-results key is ever written
twice.  But once a task reaches a terminal state its id leaves
`active_tasks`, so resubmitting the same id passes the duplicate check:
after `submit "t"` and the task's completion, a second `submit "t"`
returns successfully, and the second run's completion overwrites the
existing `task_results["t"]` record. -/
theorem submitTask_resubmit_after_completion :
    submitTask ⟨[], []⟩ "t" = .ok ⟨["t"], []⟩ ∧
    finishTask ⟨["t"], []⟩ "t" .completed = ⟨[], [("t", .completed)]⟩ ∧
    submitTask ⟨[], [("t", .completed)]⟩ "t" =
      .ok ⟨["t"], [("t", .completed)]⟩ ∧
    finishTask ⟨["t"], [("t", .completed)]⟩ "t" .failed =
      ⟨[], [("t", .failed)]⟩ := by
  refine ⟨rfl, ?_, rfl, ?_⟩ <;> rfl

/-- C10, amended.  `submit_task` rejects an id exactly when it is
currently in the running registry; an id whose task has reached a
terminal state (completed, failed, or cancelled) has left the registry
and is accepted again, overwriting its task-results entry.  While an id
is running no second task for it can be created, so its entry is
written at most once per running generation. -/
theorem submitTask_rejects_iff_active (st : AsyncState) (id : String) :
    (∃ e, submitTask st id = .error e) ↔ st.activeTasks.contains id = true := by
  unfold submitTask
  by_cases h : id ∈ st.activeTasks
  · simp [h]
  · simp [h]

/-! ## The orchestrator (`app/services/ml_processor.py`)

`MLProcessor.process_dataset` (lines 90–187) validates the input, then
chains `_preprocess_data`, `_perform_reduction`, `_perform_clustering`,
`_detect_anomalies`, `_create_data_points` and `_create_cluster_info`.
Rows are ordered mappings of column → scalar; we model a dataset as a
list of rows over a fixed column set `ncols`, each cell an `Option ℚ`
(`none` = missing/NaN; the modelled columns are the numeric ones).  The
fitted scikit-learn estimators and the pandas sampler are the
`Externals` parameters; theorems constrain them only by their
documented shape contracts. -/

/-- A cell of the dataset: a numeric value or a missing entry (NaN). -/
abbrev Cell := Option ℚ

/-- One row of the dataset, over a fixed column set. -/
abbrev Row := List Cell

/-- External numeric routines used by the orchestrator:
`pandas.DataFrame.sample`, `StandardScaler().fit_transform`, the
configured reducer's `fit_transform`, the configured clusterer's
`fit_predict` and `IsolationForest(...).fit_predict`. -/
structure Externals where
  sample : ℕ → List Row → List Row
  scaler : List Row → List Row
  reducer : List Row → List (List ℚ)
  clusterer : List (List ℚ) → List ℤ
  anomalyPredict : List Row → List ℤ

/-- The `handle_missing` configuration values accepted by the
`MLConfig` schema (`app/schemas/ml.py`, lines 162–168). -/
inductive HandleMissing
  | drop
  | mean
  | median
  | mode
  | zero
  deriving DecidableEq

/-- The part of `MLConfig` (`app/schemas/ml.py`) consulted by the
orchestrator paths under verification.  Columns are identified by
index. -/
structure MLConfigL where
  featureColumns : Option (List ℕ)
  handleMissing : HandleMissing
  normalizeFeatures : Bool
  maxSamples : Option ℕ
  detectAnomalies : Bool
  sizeColumn : Option ℕ
  deriving DecidableEq

/-- The fatal error kinds of `process_dataset`
(ml_processor.py lines 48–60). -/
inductive MLError
  | insufficientData
  | noNumericFeatures
  deriving DecidableEq

/-- `pandas.Series.mean()`: mean of the non-missing values, `none`
(NaN) when the column has no values. -/
def columnMean (col : List Cell) : Option ℚ :=
  let vals := col.filterMap id
  if vals.length = 0 then none else some (vals.sum / vals.length)

/-- `pandas.Series.median()`: middle non-missing value (mean of the two
middle values for an even count), `none` when the column is empty. -/
def columnMedian (col : List Cell) : Option ℚ :=
  let vals := (col.filterMap id).insertionSort (· ≤ ·)
  if vals.length = 0 then none
  else if vals.length % 2 = 1 then some (vals.getD (vals.length / 2) 0)
  else some ((vals.getD (vals.length / 2 - 1) 0 +
              vals.getD (vals.length / 2) 0) / 2)

/-- Column `j` of a row matrix. -/
def colAt (rows : List Row) (j : ℕ) : List Cell :=
  rows.map fun r => r.getD j none

/-- `df.fillna(df.f())` for a per-column statistic `f`: missing cells
take the column's statistic; a column whose statistic is itself NaN
(no values at all) stays missing. -/
def fillWith (rows : List Row) (f : List Cell → Option ℚ) : List Row :=
  rows.map fun r =>
    (List.range r.length).map fun j =>
      match r.getD j none with
      | some v => some v
      | none => f (colAt rows j)

/-- The `handle_missing` dispatch of `_preprocess_data` (ml_processor.py
lines 229–241).  Note the source has branches only for `drop`, `mean`,
`median` and `zero`; the schema-accepted value `mode` matches none of
them, so the rows pass through unchanged. -/
def handleMissingValues (hm : HandleMissing) (rows : List Row) : List Row :=
  match hm with
  | .drop => rows.filter fun r => r.all fun c => c.isSome
  | .mean => fillWith rows columnMean
  | .median => fillWith rows columnMedian
  | .zero => rows.map fun r => r.map fun c => some (c.getD 0)
  | .mode => rows

/-- The sampling step of `_preprocess_data` (ml_processor.py lines
210–213): when a `max_samples` cap is configured and exceeded, draw a
sample of exactly that many rows. -/
def sampleStep (ext : Externals) (cfg : MLConfigL) (data : List Row) :
    List Row :=
  match cfg.maxSamples with
  | some m => if data.length > m then ext.sample m data else data
  | none => data

/-- The feature-column selection of `_preprocess_data` (lines 215–221):
the explicitly configured columns filtered to those present, else every
numeric column (all modelled columns are numeric). -/
def selectFeatureCols (cfg : MLConfigL) (ncols : ℕ) : List ℕ :=
  match cfg.featureColumns with
  | some cols => cols.filter (· < ncols)
  | none => List.range ncols

/-- The feature matrix produced by `_preprocess_data` (lines 226–251):
column extraction from the sampled frame, missing-value handling, and
optional standard scaling. -/
def featureFrame (ext : Externals) (cfg : MLConfigL) (ncols : ℕ)
    (data : List Row) : List Row :=
  let df := sampleStep ext cfg data
  let cols := selectFeatureCols cfg ncols
  let fd := df.map fun r => cols.map fun c => r.getD c none
  let fd := handleMissingValues cfg.handleMissing fd
  if cfg.normalizeFeatures then ext.scaler fd else fd

/-- `MLProcessor._preprocess_data` (lines 189–253): raises when no
feature column remains (line 223), else returns the feature matrix and
the selected columns. -/
def preprocessData (ext : Externals) (cfg : MLConfigL) (ncols : ℕ)
    (data : List Row) : Except MLError (List Row × List ℕ) :=
  if selectFeatureCols cfg ncols = [] then .error .noNumericFeatures
  else .ok (featureFrame ext cfg ncols data, selectFeatureCols cfg ncols)

/-- `shape[1]` of a row-major matrix (rows are uniform-width in every
use; theorems that depend on the width carry that as a hypothesis). -/
def matrixWidth (m : List (List ℚ)) : ℕ := (m.headD []).length

/-- The shared "ensure 3D output" step: `_perform_reduction`
(ml_processor.py lines 327–331) and every `Reducer.transform` in
`app/services/ml/dimensionality.py` (PCA lines 316–319, Kernel PCA
423–426, t-SNE 117–120, UMAP 226–229, MDS 515–518) run the identical
code: when the transformed data has fewer than 3 columns, pad each row
with zero columns up to 3; otherwise leave it untouched. -/
def ensure3D (m : List (List ℚ)) : List (List ℚ) :=
  if matrixWidth m < 3 then
    m.map fun r => r ++ List.replicate (3 - matrixWidth m) 0
  else m

/-- `MLProcessor._perform_reduction` (lines 255–333): the configured
reducer's `fit_transform` followed by the pad-to-3D step. -/
def performReduction (ext : Externals) (df : List Row) : List (List ℚ) :=
  ensure3D (ext.reducer df)

/-- `MLProcessor._detect_anomalies` (lines 409–436):
`np.where(fit_predict(df) == -1)[0]` — the ascending indices of the
rows the isolation forest labels `-1`. -/
def detectAnomalies (ext : Externals) (df : List Row) : List ℕ :=
  ((ext.anomalyPredict df).enum.filter fun p => p.2 == -1).map Prod.fst

/-- `MLProcessor.color_palette` (lines 84–88). -/
def colorPalette : List String :=
  ["#FF6B6B", "#4ECDC4", "#45B7D1", "#96CEB4", "#FECA57",
   "#FF9FF3", "#54A0FF", "#5F27CD", "#00D2D3", "#FF9F43",
   "#FFC312", "#C4E538", "#12CBC4", "#FDA7DF", "#ED4C67"]

/-- `DataPoint` (`app/schemas/ml.py` lines 171–182).  The source ids
points with `uuid.uuid4()`; the model uses the row position, which is
equally fresh per point. -/
structure DataPointL where
  id : ℕ
  position : ℚ × ℚ × ℚ
  color : String
  size : ℚ
  cluster : ℤ
  isAnomaly : Bool
  originalData : Row
  deriving DecidableEq, Inhabited

/-- `Cluster` (`app/schemas/ml.py` lines 185–194). -/
structure ClusterL where
  id : ℤ
  color : String
  count : ℕ
  center : ℚ × ℚ × ℚ
  label : String
  deriving DecidableEq, Inhabited

/-- The per-point color rule of `_create_data_points` (lines 464–470):
red for anomalies, gray for noise, else the palette color of the
cluster id modulo the palette size. -/
def pointColor (i : ℕ) (clusterId : ℤ) (anomalies : List ℕ) : String :=
  if anomalies.contains i then "#FF0000"
  else if clusterId = -1 then "#808080"
  else colorPalette.getD (clusterId % 15).toNat ""

/-- The per-point size rule of `_create_data_points` (lines 472–480):
the configured size column's value scaled by `1/100` and clamped to
`[0.5, 2.0]`; `1.0` when the column is absent, missing, or non-numeric
(the `float(...)` failure path). -/
def pointSize (cfg : MLConfigL) (row : Row) : ℚ :=
  match cfg.sizeColumn with
  | some j =>
      if j < row.length then
        match row.getD j none with
        | some v => max (1/2) (min 2 (v / 100))
        | none => 1
      else 1
  | none => 1

/-- `MLProcessor._create_data_points` (lines 438–494):
`for i, (coords, cluster_id, row_data) in enumerate(zip(reduced_data,
cluster_labels, original_data))` — the `zip` truncates to the shortest
of the three sequences. -/
def createDataPoints (originalData : List Row) (reduced : List (List ℚ))
    (labels : List ℤ) (anomalies : List ℕ) (cfg : MLConfigL) :
    List DataPointL :=
  (reduced.zip (labels.zip originalData)).enum.map fun e =>
    let i := e.1
    let coords := e.2.1
    let clusterId := e.2.2.1
    let rowData := e.2.2.2
    { id := i
      position := (coords.getD 0 0, coords.getD 1 0, coords.getD 2 0)
      color := pointColor i clusterId anomalies
      size := pointSize cfg rowData
      cluster := clusterId
      isAnomaly := anomalies.contains i
      originalData := rowData }

/-- `np.unique`: the distinct values in ascending order. -/
def npUnique (l : List ℤ) : List ℤ := l.dedup.insertionSort (· ≤ ·)

/-- The centroid computed by `_create_cluster_info` (lines 521–525):
the arithmetic mean of the reduced positions of the rows carrying the
given label. -/
def clusterCenter (reduced : List (List ℚ)) (labels : List ℤ)
    (label : ℤ) : ℚ × ℚ × ℚ :=
  let pts := ((labels.zip reduced).filter fun p => p.1 == label).map Prod.snd
  let n : ℚ := pts.length
  ((pts.map fun r => r.getD 0 0).sum / n,
   (pts.map fun r => r.getD 1 0).sum / n,
   (pts.map fun r => r.getD 2 0).sum / n)

/-- `MLProcessor._create_cluster_info` (lines 496–540): one `Cluster`
per unique non-noise label (`-1` skipped), with palette color, member
count, centroid and display label. -/
def createClusterInfo (labels : List ℤ) (reduced : List (List ℚ)) :
    List ClusterL :=
  ((npUnique labels).filter fun l => l != -1).map fun label =>
    { id := label
      color := colorPalette.getD (label % 15).toNat ""
      count := (labels.filter fun x => x == label).length
      center := clusterCenter reduced labels label
      label := "Cluster " ++ toString label }

/-- `ProcessingResult` (`app/schemas/ml.py` lines 223–232), restricted
to the fields the claims are about (`metadata` kept as its
`total_points` field). -/
structure ProcessingResultL where
  points : List DataPointL
  clusters : List ClusterL
  anomalies : List String
  totalPoints : ℕ
  deriving DecidableEq, Inhabited

/-- `MLProcessor.process_dataset` (lines 90–187).  The pre-flight check
`if not data or len(data) < 10` (line 116) is `len(data) < 10` — the
empty list is subsumed — and nothing else runs when it fires.  Then
preprocessing, reduction, clustering, optional anomaly detection, and
result assembly, in the fixed order of the source. -/
def processDataset (ext : Externals) (cfg : MLConfigL) (ncols : ℕ)
    (data : List Row) : Except MLError ProcessingResultL :=
  if data.length < 10 then .error .insufficientData
  else
    match preprocessData ext cfg ncols data with
    | .error e => .error e
    | .ok (df, _) =>
        let reduced := performReduction ext df
        let labels := ext.clusterer reduced
        let anomalies := if cfg.detectAnomalies then detectAnomalies ext df else []
        let points := createDataPoints data reduced labels anomalies cfg
        let clusters := createClusterInfo labels reduced
        .ok { points := points, clusters := clusters,
              anomalies := anomalies.map toString,
              totalPoints := points.length }

/-- A concrete instantiation of the external numeric routines, used to
evaluate the pipeline on concrete inputs: sampling takes the first `m`
rows, scaling is the identity, the reducer embeds every row at the
origin of ℝ³, the clusterer puts every row in cluster 0, and the
isolation forest labels every row normal. -/
def trivialExternals : Externals :=
  { sample := fun m l => l.take m
    scaler := id
    reducer := fun df => df.map fun _ => [0, 0, 0]
    clusterer := fun m => m.map fun _ => 0
    anomalyPredict := fun m => m.map fun _ => 1 }

/-- A minimal configuration: auto feature columns, drop missing rows,
no scaling, no sampling cap, anomaly detection off. -/
def plainConfig : MLConfigL :=
  { featureColumns := none
    handleMissing := .drop
    normalizeFeatures := false
    maxSamples := none
    detectAnomalies := false
    sizeColumn := none }

/-- C7, confirmed.  `process_dataset` raises the insufficient-data
validation error for every input with fewer than 10 rows (the empty
input included), whatever the configuration — and since the result is
the same for **every** choice of the external routines, no
preprocessing, reduction, clustering or anomaly-detection work can
influence (or be performed before) the abort: no partial result is
returned. -/
theorem processDataset_insufficient_data (ext : Externals) (cfg : MLConfigL)
    (ncols : ℕ) (data : List Row) (h : data.length < 10) :
    processDataset ext cfg ncols data = .error .insufficientData := by
  unfold processDataset
  simp [h]

/-- Witness for `processDataset_insufficient_data` on a concrete 3-row
dataset. -/
theorem processDataset_insufficient_data_witness :
    ([[some 1], [some 2], [some 3]] : List Row).length < 10 ∧
    processDataset trivialExternals plainConfig 1
      [[some 1], [some 2], [some 3]] = .error .insufficientData :=
  ⟨by decide,
   processDataset_insufficient_data trivialExternals plainConfig 1
     [[some 1], [some 2], [some 3]] (by decide)⟩

/-- C6, amended.  The shared pad-to-3D step preserves the row count
and yields rows of width `max 3 w` for uniform input width `w`: when
the underlying algorithm produces fewer than 3 dimensions every row is
padded with zero columns up to exactly 3, but a wider-than-3 output
(e.g. PCA with `n_components = 4`, which the `PCAConfig` schema allows
up to 10) passes through unchanged — not exactly 3 columns. -/
theorem ensure3D_width (m : List (List ℚ)) (w : ℕ) (hne : m ≠ [])
    (hw : ∀ r ∈ m, r.length = w) :
    (ensure3D m).length = m.length ∧
    (∀ r ∈ ensure3D m, r.length = max 3 w) ∧
    (if w < 3 then ensure3D m = m.map fun r => r ++ List.replicate (3 - w) 0
     else ensure3D m = m) := by
  obtain ⟨r₀, m', hm⟩ : ∃ r₀ m', m = r₀ :: m' := by
    cases m with
    | nil => exact absurd rfl hne
    | cons a l => exact ⟨a, l, rfl⟩
  have hwidth : matrixWidth m = w := by
    subst hm
    simpa [matrixWidth] using hw r₀ (by simp)
  by_cases h3 : w < 3
  · have hpad : ensure3D m = m.map fun r => r ++ List.replicate (3 - w) 0 := by
      unfold ensure3D
      rw [hwidth, if_pos h3]
    refine ⟨by simp [hpad], ?_, by simp [h3, hpad]⟩
    intro r hr
    rw [hpad] at hr
    obtain ⟨s, hs, hsr⟩ := List.mem_map.mp hr
    subst hsr
    rw [List.length_append, hw s hs, List.length_replicate]
    omega
  · have hid : ensure3D m = m := by
      unfold ensure3D
      rw [hwidth, if_neg h3]
    refine ⟨by simp [hid], ?_, by simp [h3, hid]⟩
    intro r hr
    rw [hid] at hr
    rw [hw r hr]
    omega

/-- Witness for `ensure3D_width`: a 2-column matrix is padded with one
zero column to exactly 3 columns. -/
theorem ensure3D_width_witness :
    (ensure3D [[1, 2], [4, 5]]).length =
      ([[1, 2], [4, 5]] : List (List ℚ)).length ∧
    ((ensure3D [[1, 2], [4, 5]]).headD []).length = max 3 2 ∧
    ensure3D [[1, 2], [4, 5]] =
      ([[1, 2], [4, 5]] : List (List ℚ)).map fun r =>
        r ++ List.replicate (3 - 2) 0 := by
  obtain ⟨h1, h2, h3⟩ := ensure3D_width [[1, 2], [4, 5]] 2 (by simp) (by decide)
  rw [if_pos (by norm_num)] at h3
  exact ⟨h1, h2 _ (by decide), h3⟩

/-- An `Externals` instance whose reducer reports 4 components per row,
as the orchestrator's PCA does when configured with
`pca_config.n_components = 4` on a dataset with at least 4 features. -/
def fourComponentExternals : Externals :=
  { trivialExternals with reducer := fun df => df.map fun _ => [1, 2, 3, 4] }

/-- C6, counterexample.  With a 4-component underlying reduction
(`PCAConfig` allows `n_components` from 2 to 10 and `_perform_reduction`
never truncates), the orchestrator's reduction step returns 4 columns,
not exactly 3: the pad-to-3D step only ever adds columns. -/
theorem performReduction_four_columns :
    matrixWidth (performReduction fourComponentExternals
      (List.replicate 10 [some 1])) = 4 ∧
    (performReduction fourComponentExternals
      (List.replicate 10 [some 1])).length = 10 := by
  constructor <;> decide

/-- Missing-value handling never adds rows; only the `drop` strategy
may remove some. -/
theorem handleMissingValues_length_le (hm : HandleMissing) (rows : List Row) :
    (handleMissingValues hm rows).length ≤ rows.length := by
  cases hm with
  | drop => simpa [handleMissingValues] using List.length_filter_le _ rows
  | mean => simp [handleMissingValues, fillWith]
  | median => simp [handleMissingValues, fillWith]
  | zero => simp [handleMissingValues]
  | mode => exact le_refl _

/-- The sampling step never adds rows (given the pandas contract that
`df.sample(n=m)` returns exactly `m` rows). -/
theorem sampleStep_length_le (ext : Externals) (cfg : MLConfigL)
    (data : List Row)
    (hsample : ∀ m l, m < l.length → (ext.sample m l).length = m) :
    (sampleStep ext cfg data).length ≤ data.length := by
  unfold sampleStep
  cases hms : cfg.maxSamples with
  | none => exact le_refl _
  | some m =>
    dsimp only
    by_cases h : data.length > m
    · rw [if_pos h, hsample m data h]
      omega
    · rw [if_neg h]

/-- The preprocessed feature matrix never has more rows than the input
dataset. -/
theorem featureFrame_length_le (ext : Externals) (cfg : MLConfigL)
    (ncols : ℕ) (data : List Row)
    (hsample : ∀ m l, m < l.length → (ext.sample m l).length = m)
    (hscaler : ∀ l, (ext.scaler l).length = l.length) :
    (featureFrame ext cfg ncols data).length ≤ data.length := by
  unfold featureFrame
  have h2 : (handleMissingValues cfg.handleMissing
      ((sampleStep ext cfg data).map fun r =>
        (selectFeatureCols cfg ncols).map fun c => r.getD c none)).length ≤
      data.length := by
    refine le_trans (le_trans (handleMissingValues_length_le _ _) ?_)
      (sampleStep_length_le ext cfg data hsample)
    simp
  by_cases hn : cfg.normalizeFeatures
  · rw [if_pos hn, hscaler]
    exact h2
  · rw [if_neg hn]
    exact h2

/-- The pad-to-3D step preserves the row count. -/
theorem ensure3D_length (m : List (List ℚ)) :
    (ensure3D m).length = m.length := by
  unfold ensure3D
  split <;> simp

/-- `_create_data_points` produces one point per element of the
`zip(reduced_data, cluster_labels, original_data)` — i.e. as many
points as the **shortest** of the three sequences. -/
theorem createDataPoints_length (od : List Row) (rd : List (List ℚ))
    (lb : List ℤ) (an : List ℕ) (cfg : MLConfigL) :
    (createDataPoints od rd lb an cfg).length =
      min rd.length (min lb.length od.length) := by
  simp [createDataPoints]

/-- Inversion of a successful `process_dataset` run: the input passed
the row-count check and the result's points and clusters are assembled
from the same reduced matrix and label vector. -/
theorem processDataset_ok_inv (ext : Externals) (cfg : MLConfigL)
    (ncols : ℕ) (data : List Row) (res : ProcessingResultL)
    (hok : processDataset ext cfg ncols data = .ok res) :
    ¬ data.length < 10 ∧
    res.points = createDataPoints data
      (performReduction ext (featureFrame ext cfg ncols data))
      (ext.clusterer (performReduction ext (featureFrame ext cfg ncols data)))
      (if cfg.detectAnomalies then
        detectAnomalies ext (featureFrame ext cfg ncols data) else [])
      cfg ∧
    res.clusters = createClusterInfo
      (ext.clusterer (performReduction ext (featureFrame ext cfg ncols data)))
      (performReduction ext (featureFrame ext cfg ncols data)) := by
  unfold processDataset at hok
  by_cases h10 : data.length < 10
  · rw [if_pos h10] at hok
    cases hok
  · rw [if_neg h10] at hok
    unfold preprocessData at hok
    by_cases hcols : selectFeatureCols cfg ncols = []
    · rw [if_pos hcols] at hok
      cases hok
    · rw [if_neg hcols] at hok
      simp only [Except.ok.injEq] at hok
      exact ⟨h10, by rw [← hok], by rw [← hok]⟩

/-- The preprocessing step behind a successful run: the returned matrix
is the feature frame. -/
theorem preprocessData_ok_inv (ext : Externals) (cfg : MLConfigL)
    (ncols : ℕ) (data : List Row) (df : List Row) (cols : List ℕ)
    (hpre : preprocessData ext cfg ncols data = .ok (df, cols)) :
    df = featureFrame ext cfg ncols data := by
  unfold preprocessData at hpre
  by_cases hcols : selectFeatureCols cfg ncols = []
  · rw [if_pos hcols] at hpre
    cases hpre
  · rw [if_neg hcols] at hpre
    simp only [Except.ok.injEq, Prod.mk.injEq] at hpre
    exact hpre.1.symm

/-- C2, amended.  A successful `process_dataset` run returns exactly
one `DataPoint` per row of the **preprocessed** feature matrix — not
per input row: the `zip` in `_create_data_points` truncates to the
shortest sequence, so rows removed by the `drop` missing-value strategy
or by the `max_samples` sampling cap are missing from the output, and
`len(result.points) == len(input_rows)` holds only when preprocessing
removed no rows. -/
theorem processDataset_points_per_preprocessed_row (ext : Externals)
    (cfg : MLConfigL) (ncols : ℕ) (data : List Row) (df : List Row)
    (cols : List ℕ) (res : ProcessingResultL)
    (hsample : ∀ m l, m < l.length → (ext.sample m l).length = m)
    (hscaler : ∀ l, (ext.scaler l).length = l.length)
    (hreducer : ∀ l, (ext.reducer l).length = l.length)
    (hclusterer : ∀ m, (ext.clusterer m).length = m.length)
    (hpre : preprocessData ext cfg ncols data = .ok (df, cols))
    (hok : processDataset ext cfg ncols data = .ok res) :
    res.points.length = df.length ∧ df.length ≤ data.length := by
  have hdf := preprocessData_ok_inv ext cfg ncols data df cols hpre
  obtain ⟨h10, hpts, _⟩ := processDataset_ok_inv ext cfg ncols data res hok
  subst hdf
  have hle := featureFrame_length_le ext cfg ncols data hsample hscaler
  have hrd : (performReduction ext (featureFrame ext cfg ncols data)).length =
      (featureFrame ext cfg ncols data).length := by
    unfold performReduction
    rw [ensure3D_length, hreducer]
  refine ⟨?_, hle⟩
  rw [hpts, createDataPoints_length, hclusterer, hrd]
  omega

/-- Witness infrastructure: a concrete 10-row, 2-column dataset with no
missing values. -/
def fullData : List Row := List.replicate 10 [some 1, some 2]

/-- The concrete feature frame of `fullData` under `plainConfig`. -/
def fullDataFrame : List Row :=
  ((preprocessData trivialExternals plainConfig 2 fullData).toOption.map
    Prod.fst).getD []

/-- The concrete result of running the pipeline on `fullData`. -/
def fullDataResult : ProcessingResultL :=
  (processDataset trivialExternals plainConfig 2 fullData).toOption.getD default

/-- Witness for `processDataset_points_per_preprocessed_row` on the
concrete 10-row dataset. -/
theorem processDataset_points_per_preprocessed_row_witness :
    fullDataResult.points.length = fullDataFrame.length ∧
    fullDataFrame.length ≤ fullData.length :=
  processDataset_points_per_preprocessed_row trivialExternals plainConfig 2
    fullData fullDataFrame (List.range 2) fullDataResult
    (by
      intro m l h
      simp only [trivialExternals, List.length_take]
      omega)
    (fun l => rfl) (fun l => by simp [trivialExternals])
    (fun m => by simp [trivialExternals]) rfl rfl

/-- A 10-row dataset whose first row has a missing cell. -/
def dataWithMissing : List Row :=
  [some 1, none] :: List.replicate 9 [some 1, some 2]

/-- C2, counterexample.  On a 10-row dataset whose first row has a
missing value, with the `drop` strategy (the `MLConfig` default), the
run succeeds but returns 9 points — `len(result.points)` is not
`len(input_rows)`. -/
theorem processDataset_drop_loses_rows :
    dataWithMissing.length = 10 ∧
    ((processDataset trivialExternals plainConfig 2 dataWithMissing).toOption.map
      fun r => r.points.length) = some 9 := by
  constructor <;> decide

/-- Every point's cluster id is one of the labels handed to
`_create_data_points`. -/
theorem mem_createDataPoints_cluster (od : List Row) (rd : List (List ℚ))
    (lb : List ℤ) (an : List ℕ) (cfg : MLConfigL) (p : DataPointL)
    (hp : p ∈ createDataPoints od rd lb an cfg) : p.cluster ∈ lb := by
  unfold createDataPoints at hp
  obtain ⟨⟨i, c, clid, rowd⟩, he, hpe⟩ := List.mem_map.mp hp
  have hsnd : (c, clid, rowd) ∈ rd.zip (lb.zip od) := by
    have := List.mem_map_of_mem Prod.snd he
    rwa [List.enum_map_snd] at this
  have hclid : clid ∈ lb := (List.of_mem_zip (List.of_mem_zip hsnd).2).1
  have : p.cluster = clid := by
    rw [← hpe]
  rw [this]
  exact hclid

/-- C4, confirmed.  In every `ProcessingResult` returned by
`process_dataset`, each `DataPoint.cluster` is either `-1` or the id of
some `Cluster` in `result.clusters`: both are derived from the same
label vector, and `_create_cluster_info` materializes every unique
non-noise label. -/
theorem processDataset_cluster_ids (ext : Externals) (cfg : MLConfigL)
    (ncols : ℕ) (data : List Row) (res : ProcessingResultL)
    (hok : processDataset ext cfg ncols data = .ok res) :
    ∀ p ∈ res.points, p.cluster = -1 ∨ ∃ c ∈ res.clusters, c.id = p.cluster := by
  obtain ⟨_, hpts, hclus⟩ := processDataset_ok_inv ext cfg ncols data res hok
  intro p hp
  rw [hpts] at hp
  have hlab := mem_createDataPoints_cluster _ _ _ _ _ _ hp
  by_cases hneg : p.cluster = -1
  · exact Or.inl hneg
  · right
    rw [hclus]
    unfold createClusterInfo
    refine ⟨_, List.mem_map_of_mem _ ?_, rfl⟩
    refine List.mem_filter.mpr ⟨?_, ?_⟩
    · unfold npUnique
      rw [List.mem_insertionSort]
      exact List.mem_dedup.mpr hlab
    · simpa using hneg

/-- Witness for `processDataset_cluster_ids` at the first point of a
concrete 10-row run. -/
theorem processDataset_cluster_ids_witness :
    (fullDataResult.points.headD default).cluster = -1 ∨
      ∃ c ∈ fullDataResult.clusters,
        c.id = (fullDataResult.points.headD default).cluster :=
  processDataset_cluster_ids trivialExternals plainConfig 2 fullData
    fullDataResult rfl (fullDataResult.points.headD default) (by decide)

/-! ## K-Means auto-K selection (`app/services/ml/clustering.py`)

`KMeansClusterer._find_optimal_k` (lines 148–193) fits one K-Means per
candidate `k` in `range(k_min, k_max + 1)`, collecting an inertia and a
silhouette score per candidate (external numeric work; the two lists
are parameters here, one entry per candidate), then picks the final K
from those lists.  `_find_elbow_point` (lines 195–210) locates the
elbow of the inertia curve via `np.diff` applied twice. -/

/-- `np.diff`: successive differences. -/
def npDiff : List ℚ → List ℚ
  | x :: y :: rest => (y - x) :: npDiff (y :: rest)
  | _ => []

/-- The largest element of a list (`0` for the empty list, on which
numpy raises instead). -/
def listMax : List ℚ → ℚ
  | [] => 0
  | [x] => x
  | x :: y :: rest => max x (listMax (y :: rest))

/-- `np.argmax`: the index of the first occurrence of the maximum. -/
def npArgmax : List ℚ → ℕ
  | [] => 0
  | [_] => 0
  | x :: y :: rest =>
      if listMax (y :: rest) > x then 1 + npArgmax (y :: rest) else 0

/-- `KMeansClusterer._find_elbow_point` (lines 195–210): fewer than 3
candidates fall back to the first; otherwise take
`np.argmax(np.diff(np.diff(inertias))) + 1`, clamped to the last
candidate index. -/
def findElbowPoint (kValues : List ℤ) (inertias : List ℚ) : ℤ :=
  if kValues.length < 3 then kValues.getD 0 0
  else if (npDiff (npDiff inertias)).length = 0 then kValues.getD 0 0
  else
    kValues.getD
      (min (npArgmax (npDiff (npDiff inertias)) + 1) (kValues.length - 1)) 0

/-- `range(k_min, k_max + 1)` as a list of candidate cluster counts. -/
def kRangeList (kMin kMax : ℤ) : List ℤ :=
  (List.range (kMax - kMin + 1).toNat).map fun i : ℕ => kMin + (i : ℤ)

/-- `KMeansClusterer._find_optimal_k` (lines 179–193): elbow K from the
inertia curve, silhouette K as `k_range[np.argmax(silhouette_scores)]`;
the silhouette K wins when `silhouette_scores[optimal_k_silhouette -
k_min] > 0.5`, else the elbow K. -/
def findOptimalK (kMin kMax : ℤ) (inertias silhouettes : List ℚ) : ℤ :=
  if silhouettes.getD
      (((kRangeList kMin kMax).getD (npArgmax silhouettes) 0 - kMin).toNat) 0
      > 1/2 then
    (kRangeList kMin kMax).getD (npArgmax silhouettes) 0
  else findElbowPoint (kRangeList kMin kMax) inertias

/-- Modelled from the spec's words: the second discrete derivative of
a curve — `y[i+2] - 2*y[i+1] + y[i]`, centered at each interior
point. -/
def specSecondDeriv : List ℚ → List ℚ
  | a :: b :: c :: rest => (c - 2 * b + a) :: specSecondDeriv (b :: c :: rest)
  | _ => []

/-- Modelled from the spec's words (claim C8): the chosen K is the
silhouette-argmax candidate when that candidate's silhouette score
exceeds 0.5, and otherwise the candidate at the index of the maximum
second discrete derivative of the inertia curve (which is centered at
candidate `argmax + 1`). -/
def specChooseK (kValues : List ℤ) (inertias silhouettes : List ℚ) : ℤ :=
  if silhouettes.getD (npArgmax silhouettes) 0 > 1/2 then
    kValues.getD (npArgmax silhouettes) 0
  else
    kValues.getD (npArgmax (specSecondDeriv inertias) + 1) 0

/-- `np.diff` shortens a list by one. -/
theorem npDiff_length (l : List ℚ) : (npDiff l).length = l.length - 1 := by
  induction l with
  | nil => simp [npDiff]
  | cons x l ih =>
    cases l with
    | nil => simp [npDiff]
    | cons y rest =>
      simp only [npDiff, List.length_cons]
      rw [ih]
      simp

/-- Two applications of `np.diff` compute exactly the centered second
discrete derivative. -/
theorem npDiff_npDiff (l : List ℚ) : npDiff (npDiff l) = specSecondDeriv l := by
  induction l with
  | nil => rfl
  | cons a l ih =>
    match l with
    | [] => rfl
    | [b] => rfl
    | b :: c :: r =>
      have hstep : npDiff (npDiff (a :: b :: c :: r)) =
          ((c - b) - (b - a)) :: npDiff (npDiff (b :: c :: r)) := by
        simp [npDiff]
      rw [hstep, ih]
      simp only [specSecondDeriv, List.cons.injEq]
      exact ⟨by ring, trivial⟩

/-- `np.argmax` returns a valid index. -/
theorem npArgmax_lt_length (l : List ℚ) (h : l ≠ []) :
    npArgmax l < l.length := by
  induction l with
  | nil => exact absurd rfl h
  | cons x l ih =>
    cases l with
    | nil => simp [npArgmax]
    | cons y rest =>
      by_cases hgt : listMax (y :: rest) > x
      · have hlt := ih (List.cons_ne_nil y rest)
        simp only [List.length_cons] at hlt
        simp only [npArgmax, if_pos hgt, List.length_cons]
        omega
      · simp [npArgmax, hgt]

/-- C8, confirmed.  With at least three candidates and one
inertia/silhouette entry per candidate, the auto-K selection of
`_find_optimal_k` chooses exactly as the spec describes: the
silhouette-argmax K when its silhouette score exceeds 0.5, else the
candidate at the index of the maximum second discrete derivative of the
inertia curve. -/
theorem findOptimalK_matches_spec (kMin kMax : ℤ) (inertias silhouettes : List ℚ)
    (h3 : 3 ≤ (kMax - kMin + 1).toNat)
    (hi : inertias.length = (kMax - kMin + 1).toNat)
    (hs : silhouettes.length = (kMax - kMin + 1).toNat) :
    findOptimalK kMin kMax inertias silhouettes =
      specChooseK (kRangeList kMin kMax) inertias silhouettes := by
  set n := (kMax - kMin + 1).toNat with hn
  have hkrlen : (kRangeList kMin kMax).length = n := by
    simp [kRangeList, ← hn]
  have hsne : silhouettes ≠ [] := by
    intro hnil
    rw [hnil] at hs
    simp at hs
    omega
  have hjlt : npArgmax silhouettes < n := by
    have := npArgmax_lt_length silhouettes hsne
    omega
  have hsK : (kRangeList kMin kMax).getD (npArgmax silhouettes) 0 =
      kMin + (npArgmax silhouettes : ℤ) := by
    rw [List.getD_eq_getElem _ 0 (by rw [hkrlen]; exact hjlt)]
    simp [kRangeList]
  have hidx : (((kRangeList kMin kMax).getD (npArgmax silhouettes) 0 - kMin).toNat) =
      npArgmax silhouettes := by
    rw [hsK]
    omega
  have helbow : findElbowPoint (kRangeList kMin kMax) inertias =
      (kRangeList kMin kMax).getD (npArgmax (specSecondDeriv inertias) + 1) 0 := by
    unfold findElbowPoint
    rw [if_neg (show ¬ (kRangeList kMin kMax).length < 3 by omega)]
    have hsdlen : (specSecondDeriv inertias).length = n - 2 := by
      rw [← npDiff_npDiff, npDiff_length, npDiff_length, hi]
      omega
    rw [npDiff_npDiff]
    rw [if_neg (show ¬ (specSecondDeriv inertias).length = 0 by omega)]
    have hane : specSecondDeriv inertias ≠ [] := by
      intro hnil
      rw [hnil] at hsdlen
      simp at hsdlen
      omega
    have harg := npArgmax_lt_length _ hane
    rw [hsdlen] at harg
    have hmin : min (npArgmax (specSecondDeriv inertias) + 1)
        ((kRangeList kMin kMax).length - 1) =
        npArgmax (specSecondDeriv inertias) + 1 := by
      omega
    rw [hmin]
  unfold findOptimalK specChooseK
  rw [hidx, helbow]

/-- Witness for `findOptimalK_matches_spec` with candidates {2, 3, 4},
inertias [100, 50, 45] and silhouettes [1/5, 3/10, 1/10]. -/
theorem findOptimalK_matches_spec_witness :
    findOptimalK 2 4 [100, 50, 45] [1/5, 3/10, 1/10] =
      specChooseK (kRangeList 2 4) [100, 50, 45] [1/5, 3/10, 1/10] :=
  findOptimalK_matches_spec 2 4 [100, 50, 45] [1/5, 3/10, 1/10]
    (by decide) (by decide) (by decide)

/-! ## `EnsembleAnomalyDetector.transform` (`app/services/ml/anomalies.py`)

`transform` (lines 541–640) queries every fitted member, turns each
member's flagged indices into a 0/1 mask, builds per-member score
vectors (min-max normalized decision scores scaled by the member's
weight when the member exposes them, else the mask itself scaled by the
weight), sums them into ensemble scores, and flags a row when its
weighted vote count reaches `len(detectors) * vote_threshold` **or**
its ensemble score reaches the 90th percentile of the ensemble scores
(`np.percentile(ensemble_scores, (1 - 0.1) * 100)`). -/

/-- The smallest element of a list (`0` for the empty list, on which
numpy raises instead). -/
def listMin : List ℚ → ℚ
  | [] => 0
  | [x] => x
  | x :: y :: rest => min x (listMin (y :: rest))

/-- What one fitted member contributes to `transform` (lines 557–577):
its flagged row indices (`result.data`) and, when its metadata exposes
them, its continuous decision scores. -/
structure MemberOutput where
  indices : List ℕ
  decisionScores : Option (List ℚ)

/-- The member's 0/1 anomaly mask over `n` rows (lines 562–564). -/
def maskFloat (n : ℕ) (indices : List ℕ) : List ℚ :=
  (List.range n).map fun i => if indices.contains i then 1 else 0

/-- The min-max normalization of lines 570 and 574:
`(s - min) / (max - min + 1e-8)`. -/
def minMaxNormalize (scores : List ℚ) : List ℚ :=
  scores.map fun s =>
    (s - listMin scores) / (listMax scores - listMin scores + 1 / 100000000)

/-- One member's weighted score vector (lines 567–577): normalized
decision scores times the weight when available, else the 0/1 mask
times the weight. -/
def memberScores (n : ℕ) (weight : ℚ) (mo : MemberOutput) : List ℚ :=
  match mo.decisionScores with
  | some s => (minMaxNormalize s).map fun x => x * weight
  | none => (maskFloat n mo.indices).map fun x => x * weight

/-- `np.sum(list_of_arrays, axis=0)`: the pointwise sum of `n`-vectors. -/
def sumPointwise (n : ℕ) (ls : List (List ℚ)) : List ℚ :=
  ls.foldl (fun acc s => acc.zipWith (· + ·) s) (List.replicate n 0)

/-- `ensemble_scores` (line 595). -/
def ensembleScoresOf (n : ℕ) (members : List MemberOutput)
    (weights : List ℚ) : List ℚ :=
  sumPointwise n ((members.zip weights).map fun p => memberScores n p.2 p.1)

/-- `np.percentile(xs, q)` with numpy's default linear interpolation:
index `(len - 1) * q / 100` into the sorted data, interpolating between
the two neighbouring order statistics. -/
def npPercentile (xs : List ℚ) (q : ℚ) : ℚ :=
  let s := xs.insertionSort (· ≤ ·)
  let pos : ℚ := ((xs.length : ℚ) - 1) * q / 100
  let k : ℕ := (⌊pos⌋).toNat
  match s.get? (k + 1) with
  | some nxt => s.getD k 0 + (pos - (k : ℚ)) * (nxt - s.getD k 0)
  | none => s.getD k 0

/-- `score_threshold` (line 596): the percentile of the ensemble scores
at the nominal 10 % contamination rate. -/
def scoreThresholdOf (n : ℕ) (members : List MemberOutput)
    (weights : List ℚ) : ℚ :=
  npPercentile (ensembleScoresOf n members weights) ((1 - 1 / 10) * 100)

/-- `ensemble_votes` (line 599): the pointwise count of members
flagging each row (as numbers, ready for the float comparison of line
600). -/
def votesOf (n : ℕ) (members : List MemberOutput) : List ℚ :=
  sumPointwise n (members.map fun mo => maskFloat n mo.indices)

/-- `EnsembleAnomalyDetector.transform` (lines 591–607): a row is
anomalous when its vote count reaches `len(detectors) * vote_threshold`
or its ensemble score reaches the percentile threshold;
`np.where(...)[0]` returns the flagged indices in ascending order. -/
def ensembleTransform (n : ℕ) (members : List MemberOutput)
    (weights : List ℚ) (voteThreshold : ℚ) : List ℕ :=
  (List.range n).filter fun i =>
    decide ((votesOf n members).getD i 0 ≥
      (members.length : ℚ) * voteThreshold) ||
    decide ((ensembleScoresOf n members weights).getD i 0 ≥
      scoreThresholdOf n members weights)

/-- Entry `i` of a pointwise-sum fold, for uniform `n`-vectors. -/
theorem foldl_zipWith_add_getD (n i : ℕ) (hi : i < n) (ms : List (List ℚ)) :
    ∀ init : List ℚ, init.length = n → (∀ s ∈ ms, s.length = n) →
      (ms.foldl (fun acc s => acc.zipWith (· + ·) s) init).getD i 0 =
        init.getD i 0 + (ms.map fun s => s.getD i 0).sum := by
  induction ms with
  | nil =>
    intro init _ _
    simp
  | cons s ms ih =>
    intro init hinit hlen
    have hs := hlen s (by simp)
    have hzlen : (init.zipWith (· + ·) s).length = n := by
      simp [List.length_zipWith, hinit, hs]
    have hz : (init.zipWith (· + ·) s).getD i 0 = init.getD i 0 + s.getD i 0 := by
      rw [List.getD_eq_getElem _ _ (by rw [hzlen]; exact hi),
        List.getD_eq_getElem _ _ (by rw [hinit]; exact hi),
        List.getD_eq_getElem _ _ (by rw [hs]; exact hi)]
      simp
    simp only [List.foldl_cons]
    rw [ih (init.zipWith (· + ·) s) hzlen fun t ht => hlen t (by simp [ht]), hz]
    simp [add_assoc]

/-- Entry `i` of `np.sum(list_of_n_vectors, axis=0)`. -/
theorem sumPointwise_getD (n i : ℕ) (hi : i < n) (ms : List (List ℚ))
    (hlen : ∀ s ∈ ms, s.length = n) :
    (sumPointwise n ms).getD i 0 = (ms.map fun s => s.getD i 0).sum := by
  unfold sumPointwise
  rw [foldl_zipWith_add_getD n i hi ms _ (by simp) hlen]
  rw [List.getD_eq_getElem _ _ (by simpa using hi)]
  simp

/-- Entry `i` of a member's 0/1 mask. -/
theorem maskFloat_getD (n i : ℕ) (hi : i < n) (indices : List ℕ) :
    (maskFloat n indices).getD i 0 = if indices.contains i then 1 else 0 := by
  unfold maskFloat
  rw [List.getD_eq_getElem _ _ (by simpa using hi)]
  simp

/-- When every member flags the same index set, the vote count of a row
is the member count on flagged rows and `0` elsewhere. -/
theorem votesOf_getD (n i : ℕ) (hi : i < n) (members : List MemberOutput)
    (S : List ℕ)
    (hmem : ∀ mo ∈ members, ∀ j, mo.indices.contains j = S.contains j) :
    (votesOf n members).getD i 0 =
      if S.contains i then (members.length : ℚ) else 0 := by
  unfold votesOf
  rw [sumPointwise_getD n i hi _ (by
    intro s hs
    obtain ⟨mo, _, rfl⟩ := List.mem_map.mp hs
    simp [maskFloat])]
  rw [List.map_map]
  have hmap : members.map ((fun s => s.getD i 0) ∘ fun mo => maskFloat n mo.indices) =
      members.map fun _ => if S.contains i then (1 : ℚ) else 0 := by
    apply List.map_congr_left
    intro mo hmo
    simp only [Function.comp_apply]
    rw [maskFloat_getD n i hi, hmem mo hmo i]
  rw [hmap, List.map_const', List.sum_replicate]
  by_cases hS : S.contains i
  · simp [hS, nsmul_eq_mul]
  · simp [hS]

/-- C3, amended.  If every fitted member flags exactly the same index
set `S`, the ensemble's vote component reproduces `S` exactly (for any
vote threshold in `(0, 1]`, so in particular the default `0.5`), and
the final anomaly set is `S` **union** the rows whose ensemble score
reaches the 90th-percentile score threshold: the final set always
contains `S`, but the OR-ed percentile branch can add rows, so equality
with `S` can fail. -/
theorem ensembleTransform_members_agree (n : ℕ) (members : List MemberOutput)
    (weights : List ℚ) (vt : ℚ) (S : List ℕ)
    (hne : members ≠ []) (hvt0 : 0 < vt) (hvt1 : vt ≤ 1)
    (hmem : ∀ mo ∈ members, ∀ j, mo.indices.contains j = S.contains j) :
    (∀ i ∈ S, i < n → i ∈ ensembleTransform n members weights vt) ∧
    (∀ i, i ∈ ensembleTransform n members weights vt ↔
      i < n ∧ (S.contains i = true ∨
        (ensembleScoresOf n members weights).getD i 0 ≥
          scoreThresholdOf n members weights)) := by
  have hm1 : 1 ≤ members.length := by
    cases members with
    | nil => exact absurd rfl hne
    | cons _ _ => simp [Nat.succ_le_succ]
  have hvote : ∀ i, i < n →
      decide ((votesOf n members).getD i 0 ≥ (members.length : ℚ) * vt) =
        S.contains i := by
    intro i hi
    rw [votesOf_getD n i hi members S hmem]
    by_cases hS : S.contains i
    · rw [if_pos hS, hS, decide_eq_true_eq]
      have hcast : (1 : ℚ) ≤ (members.length : ℚ) := by exact_mod_cast hm1
      nlinarith
    · have hS' : S.contains i = false := by simpa using hS
      rw [if_neg hS, hS', decide_eq_false_iff_not]
      have hcast : (1 : ℚ) ≤ (members.length : ℚ) := by exact_mod_cast hm1
      push_neg
      nlinarith
  have hiff : ∀ i, i ∈ ensembleTransform n members weights vt ↔
      i < n ∧ (S.contains i = true ∨
        (ensembleScoresOf n members weights).getD i 0 ≥
          scoreThresholdOf n members weights) := by
    intro i
    unfold ensembleTransform
    rw [List.mem_filter, List.mem_range]
    constructor
    · rintro ⟨hin, hp⟩
      refine ⟨hin, ?_⟩
      rw [hvote i hin] at hp
      rcases Bool.or_eq_true_iff.mp hp with h | h
      · exact Or.inl h
      · exact Or.inr (of_decide_eq_true h)
    · rintro ⟨hin, hp⟩
      refine ⟨hin, ?_⟩
      rw [hvote i hin]
      rcases hp with h | h
      · exact Bool.or_eq_true_iff.mpr (Or.inl h)
      · exact Bool.or_eq_true_iff.mpr (Or.inr (decide_eq_true h))
  refine ⟨?_, hiff⟩
  intro i hiS hin
  exact (hiff i).mpr ⟨hin, Or.inl (List.elem_eq_true_of_mem hiS)⟩

/-- Witness for `ensembleTransform_members_agree`: a single member
flagging row 0 out of 3 rows, with the default vote threshold — row 0
is in the ensemble's final set, and row 1's membership is equivalent to
the score-threshold condition. -/
theorem ensembleTransform_members_agree_witness :
    0 ∈ ensembleTransform 3 [⟨[0], none⟩] [1] (1/2) ∧
    (1 ∈ ensembleTransform 3 [⟨[0], none⟩] [1] (1/2) ↔
      1 < 3 ∧ (([0] : List ℕ).contains 1 = true ∨
        (ensembleScoresOf 3 [⟨[0], none⟩] [1]).getD 1 0 ≥
          scoreThresholdOf 3 [⟨[0], none⟩] [1])) :=
  ⟨(ensembleTransform_members_agree 3 [⟨[0], none⟩] [1] (1/2) [0]
      (List.cons_ne_nil _ _) (by norm_num) (by norm_num)
      (fun mo hmo j => by
        have hmo' : mo = ⟨[0], none⟩ := by simpa using hmo
        rw [hmo'])).1 0 (by decide) (by decide),
   (ensembleTransform_members_agree 3 [⟨[0], none⟩] [1] (1/2) [0]
      (List.cons_ne_nil _ _) (by norm_num) (by norm_num)
      (fun mo hmo j => by
        have hmo' : mo = ⟨[0], none⟩ := by simpa using hmo
        rw [hmo'])).2 1⟩

/-- C3, counterexample.  Eleven rows, every member (here one member,
weight 1 after normalization) flagging exactly row 0: the vote
component is `{0}`, but the 90th percentile of the ensemble scores
`[1, 0, …, 0]` is 0, so the score branch flags **every** row and the
final anomaly set is all eleven rows — not the members' common set
`{0}`. -/
theorem ensembleTransform_percentile_adds_rows :
    ensembleTransform 11 [⟨[0], none⟩] [1] (1/2) = List.range 11 ∧
    List.range 11 ≠ [0] := by
  have hmask : maskFloat 11 [0] = [1, 0, 0, 0, 0, 0, 0, 0, 0, 0, 0] := rfl
  have h1 : memberScores 11 1 ⟨[0], none⟩ =
      [1, 0, 0, 0, 0, 0, 0, 0, 0, 0, 0] := by
    show (maskFloat 11 [0]).map (· * 1) = _
    rw [hmask]
    norm_num
  have h2 : sumPointwise 11 [[1, 0, 0, 0, 0, 0, 0, 0, 0, 0, 0]] =
      [1, 0, 0, 0, 0, 0, 0, 0, 0, 0, 0] := by
    unfold sumPointwise
    simp only [List.foldl_cons, List.foldl_nil]
    norm_num [List.replicate, List.zipWith]
  have hscores : ensembleScoresOf 11 [⟨[0], none⟩] [1] =
      [1, 0, 0, 0, 0, 0, 0, 0, 0, 0, 0] := by
    unfold ensembleScoresOf
    have hz : (([⟨[0], none⟩] : List MemberOutput).zip ([1] : List ℚ)) =
        [(⟨[0], none⟩, 1)] := rfl
    rw [hz, List.map_cons, List.map_nil]
    dsimp only
    rw [h1, h2]
  have hvotes : votesOf 11 [⟨[0], none⟩] =
      [1, 0, 0, 0, 0, 0, 0, 0, 0, 0, 0] := by
    unfold votesOf
    rw [List.map_cons, List.map_nil]
    dsimp only
    rw [hmask, h2]
  have hsorted : (([1, 0, 0, 0, 0, 0, 0, 0, 0, 0, 0] : List ℚ).insertionSort
      (· ≤ ·)) = [0, 0, 0, 0, 0, 0, 0, 0, 0, 0, 1] := by decide
  have hperc : npPercentile ([1, 0, 0, 0, 0, 0, 0, 0, 0, 0, 0] : List ℚ)
      ((1 - 1/10) * 100) = 0 := by
    have hpos : ((([1, 0, 0, 0, 0, 0, 0, 0, 0, 0, 0] : List ℚ).length : ℚ) - 1) *
        ((1 - 1/10) * 100) / 100 = 9 := by
      norm_num
    have hfloor : ⌊(9 : ℚ)⌋ = 9 := by norm_num
    have hk : (⌊(9 : ℚ)⌋).toNat = 9 := by
      rw [hfloor]
      rfl
    have hnxt : (([0, 0, 0, 0, 0, 0, 0, 0, 0, 0, 1] : List ℚ)).get? 10 =
        some 1 := by decide
    have hval : (([0, 0, 0, 0, 0, 0, 0, 0, 0, 0, 1] : List ℚ)).getD 9 0 = 0 := by
      decide
    simp only [npPercentile]
    rw [hsorted, hpos, hk, hnxt]
    rw [hval]
    norm_num
  have hthresh : scoreThresholdOf 11 [⟨[0], none⟩] [1] = 0 := by
    unfold scoreThresholdOf
    rw [hscores, hperc]
  have hnonneg : ∀ i : ℕ,
      (0 : ℚ) ≤ ([1, 0, 0, 0, 0, 0, 0, 0, 0, 0, 0] : List ℚ).getD i 0 := by
    intro i
    by_cases hi : i < 11
    · interval_cases i <;> decide
    · rw [List.getD_eq_default _ _
        (by simp only [List.length_cons, List.length_nil]; omega)]
  constructor
  · unfold ensembleTransform
    simp only [hvotes, hscores, hthresh]
    apply List.filter_eq_self.mpr
    intro i _
    rw [decide_eq_true
      (show ([1, 0, 0, 0, 0, 0, 0, 0, 0, 0, 0] : List ℚ).getD i 0 ≥ 0 from
        hnonneg i), Bool.or_true]
  · decide

end DataMirage
